import Mathlib

/-!
Verification of the EcoSim universe-store server (`src/ecosystem/server.py`).

The server persists opaque JSON text under sanitized filenames in a flat
save directory and exposes Load / Save / Delete / List operations over HTTP.
We shallowly embed the Python code: strings are Lean `String`s (lists of
characters, i.e. decoded text), the save directory is an association list
from filename to file content, and the Python standard-library pieces the
code calls (`re.sub` with the two concrete patterns, `str.strip`,
`str.replace`, text-mode file reads with universal-newline translation,
`json.load` and `os.stat` as per-file oracles) are embedded by faithful
Lean functions.
-/

namespace EcoSim

/-- Python regex class `\s` restricted to the ASCII whitespace characters
(space, tab, newline, carriage return, vertical tab, form feed); also the
character set removed by `str.strip()`. -/
def pySpace (c : Char) : Bool :=
  c = ' ' || c = '\t' || c = '\n' || c = '\r' || c = '\x0b' || c = '\x0c'

/-- Python regex class `\w`: alphanumeric characters or underscore. -/
def pyWord (c : Char) : Bool :=
  c.isAlphanum || c = '_'

/-- The characters kept by `re.sub(r'[^\w\s-]', '', name)` in
`safe_filename`: word characters, whitespace, and hyphen. -/
def keepChar (c : Char) : Bool :=
  pyWord c || pySpace c || c = '-'

/-- `str.strip()`: drop leading and trailing whitespace. -/
def pyStrip (l : List Char) : List Char :=
  ((l.dropWhile pySpace).reverse.dropWhile pySpace).reverse

/-- `re.sub(r'\s+', '_', s)`: replace every maximal run of whitespace
characters by a single underscore.  A whitespace character followed by more
whitespace is dropped; the last character of a run becomes `'_'`. -/
def collapseWS : List Char → List Char
  | [] => []
  | [c] => if pySpace c then ['_'] else [c]
  | c :: c2 :: rest =>
    if pySpace c then
      (if pySpace c2 then collapseWS (c2 :: rest)
       else '_' :: collapseWS (c2 :: rest))
    else c :: collapseWS (c2 :: rest)

/-- The characters of the filename extension `".json"`. -/
def jsonExtL : List Char := ['.', 'j', 's', 'o', 'n']

/-- The stem computed by `safe_filename` before the extension is appended:
`re.sub(r'\s+', '_', re.sub(r'[^\w\s-]', '', name).strip())`. -/
def sanitizedStem (l : List Char) : List Char :=
  collapseWS (pyStrip (l.filter keepChar))

/-- `safe_filename` from `server.py`: sanitize the name and append `.json`;
return `none` (Python `None`) when the sanitized stem is empty. -/
def safe_filename (name : String) : Option String :=
  let stem := sanitizedStem name.data
  if stem.isEmpty then none else some (String.mk (stem ++ jsonExtL))

/-- Python `filename.replace('.json', '')`: delete every (left-to-right,
non-overlapping) occurrence of the five-character substring `".json"`. -/
def removeJson : List Char → List Char
  | [] => []
  | '.' :: 'j' :: 's' :: 'o' :: 'n' :: rest => removeJson rest
  | c :: rest => c :: removeJson rest

/-- Python `s.replace('_', ' ')`: single-character replacement is a map. -/
def underscoreToSpace (l : List Char) : List Char :=
  l.map (fun c => if c = '_' then ' ' else c)

/-- `name_from_filename` from `server.py`:
`filename.replace('.json', '').replace('_', ' ')`. -/
def name_from_filename (f : String) : String :=
  String.mk (underscoreToSpace (removeJson f.data))

/-- Universal-newline translation performed by Python text-mode reads
(`open(path, 'r')` with the default `newline=None`): every `"\r\n"` pair
and every lone `'\r'` in the file becomes `'\n'` in the returned string. -/
def univNewlines : List Char → List Char
  | [] => []
  | '\r' :: '\n' :: rest => '\n' :: univNewlines rest
  | '\r' :: rest => '\n' :: univNewlines rest
  | c :: rest => c :: univNewlines rest

/-- The save directory, modelled as an association list from filename to
file content (decoded text).  The server treats the directory as a flat
key-value store; no file ordering is ever observed by Load/Save/Delete. -/
def FS : Type := List (String × String)

/-- Writing a file: the new content fully replaces any previous entry for
the same filename (Python `open(path, 'w')` truncates), and creates the
entry when absent.  On Linux the text-mode write is the identity on the
written string (`os.linesep` is `'\n'`). -/
def fsWrite (fs : FS) (k v : String) : FS :=
  (k, v) :: List.filter (fun p => p.1 != k) fs

/-- Removing a file (`os.remove`). -/
def fsErase (fs : FS) (k : String) : FS :=
  List.filter (fun p => p.1 != k) fs

/-- `os.path.exists` / reading a file's stored content. -/
def fsLookup (fs : FS) (k : String) : Option String :=
  List.lookup k fs

/-- `load_universe` from `server.py`: sanitize the name; `None` when
sanitization fails or the file does not exist; otherwise the result of the
text-mode read of the stored file, i.e. the stored content with
universal-newline translation applied. -/
def load_universe (fs : FS) (name : String) : Option String :=
  match safe_filename name with
  | none => none
  | some fn =>
    match fsLookup fs fn with
    | none => none
    | some content => some (String.mk (univNewlines content.data))

/-- `save_universe` from `server.py`: sanitize the name; `False` when
sanitization fails; otherwise write the body to the file and return `True`.
`ioFail` is an oracle for the `except` branch around the write: when it is
`true` the function returns `False` (the real file may then be left
truncated or partially written; no theorem below depends on the
failure-path directory state). -/
def save_universe (fs : FS) (name data : String) (ioFail : Bool) :
    FS × Bool :=
  match safe_filename name with
  | none => (fs, false)
  | some fn => if ioFail then (fs, false) else (fsWrite fs fn data, true)

/-- `delete_universe` from `server.py`: sanitize the name; `False` when
sanitization fails or the file does not exist; otherwise remove it. -/
def delete_universe (fs : FS) (name : String) : FS × Bool :=
  match safe_filename name with
  | none => (fs, false)
  | some fn =>
    if (fsLookup fs fn).isSome then (fsErase fs fn, true) else (fs, false)

/-- JSON values, for the responses built by `send_json` and for the parsed
content `json.load` hands to `list_universes`. -/
inductive JsonV where
  | null : JsonV
  | bool (b : Bool) : JsonV
  | num (n : Int) : JsonV
  | str (s : String) : JsonV
  | arr (elts : List JsonV) : JsonV
  | obj (fields : List (String × JsonV)) : JsonV

/-- An HTTP response body: `raw` for the byte-for-byte write in
`do_GET` (load), `json` for `send_json`, `err` for `send_error`'s
plain error page. -/
inductive RespBody where
  | raw (s : String) : RespBody
  | json (v : JsonV) : RespBody
  | err (msg : String) : RespBody

/-- An HTTP response: status code and body. -/
structure Response where
  status : Nat
  body : RespBody

/-- The per-name universe branch of `do_GET`: 200 with the loaded
data when `load_universe` returns a value, else `send_error(404)`. -/
def handleLoad (fs : FS) (name : String) : Response :=
  match load_universe fs name with
  | some data => ⟨200, RespBody.raw data⟩
  | none => ⟨404, RespBody.err "Universe not found"⟩

/-- The per-name universe branch of `do_POST`: on success `send_json`
of the object with key `ok` mapped to `True` and key `name` mapped to the
requested name, else `send_error(400)`. -/
def handlePost (fs : FS) (name body : String) (ioFail : Bool) :
    Response × FS :=
  let r := save_universe fs name body ioFail
  if r.2 then
    (⟨200, RespBody.json (JsonV.obj
        [("ok", JsonV.bool true), ("name", JsonV.str name)])⟩, r.1)
  else
    (⟨400, RespBody.err "Failed to save"⟩, r.1)

/-- The per-name universe branch of `do_DELETE`: on success `send_json`
of the object with key `ok` mapped to `True`, else `send_error(404)`. -/
def handleDelete (fs : FS) (name : String) : Response × FS :=
  let r := delete_universe fs name
  if r.2 then (⟨200, RespBody.json (JsonV.obj [("ok", JsonV.bool true)])⟩, r.1)
  else (⟨404, RespBody.err "Universe not found"⟩, r.1)

/-- Lexicographic comparison of character lists by code point; this is the
order in which Python's `sorted` arranges the strings `os.listdir` returns. -/
def leChars : List Char → List Char → Bool
  | [], _ => true
  | _ :: _, [] => false
  | a :: as, b :: bs =>
    if a < b then true else if b < a then false else leChars as bs

/-- The filename order used by `sorted(os.listdir(SAVES_DIR))`. -/
def fnameLe (a b : String) : Prop := leChars a.data b.data = true

instance : DecidableRel fnameLe := fun _ _ => inferInstanceAs (Decidable (_ = true))

/-- Result of `os.stat`: the fields `list_universes` consumes.  `mtimeMs`
stands for `int(stat.st_mtime * 1000)` (the float arithmetic is abstracted,
no claim depends on its value). -/
structure Stat where
  mtimeMs : Int
  size : Nat

/-- What the listing observes about one directory entry: the outcome of
`os.stat` and of `json.load` on that file, each `none` when the call
raises.  The JSON parser and `stat` are library code outside this
repository, so they enter the model as per-file oracles. -/
structure DirEntry where
  statE : Option Stat
  parsed : Option JsonV

/-- A directory as the listing sees it: filenames with their entry data. -/
def Dir : Type := List (String × DirEntry)

/-- `f.endswith('.json')`. -/
def endsWithJson (f : String) : Bool := jsonExtL.isSuffixOf f.data

/-- Python `data.get(key, dflt)`: succeeds only when `data` is a dict
(otherwise `.get` raises `AttributeError`, caught by the listing's blanket
`except`), returning the value under `key` or the default. -/
def jget (v : JsonV) (k : String) (d : JsonV) : Option JsonV :=
  match v with
  | JsonV.obj fields => some ((List.lookup k fields).getD d)
  | _ => none

/-- Python `len` on a JSON value: defined for arrays, strings and dicts,
raises (`none`) on numbers, booleans and `None`. -/
def pyLen : JsonV → Option Nat
  | JsonV.arr elts => some elts.length
  | JsonV.str s => some s.length
  | JsonV.obj fields => some fields.length
  | _ => none

/-- One element of the array returned by `list_universes`. -/
structure Summary where
  name : String
  filename : String
  tick : JsonV
  generation : JsonV
  population : Nat
  savedAt : Int
  fileSize : Nat

/-- The body of the per-file `try` block in `list_universes`: stat the
file, parse it, and build the summary record; `none` when any step raises
(the `except Exception: continue`). -/
def summarize (f : String) (e : DirEntry) : Option Summary := do
  let st ← e.statE
  let data ← e.parsed
  let t ← jget data "tick" (JsonV.num 0)
  let g ← jget data "maxGeneration" (JsonV.num 0)
  let cs ← jget data "creatures" (JsonV.arr [])
  let pop ← pyLen cs
  pure ⟨name_from_filename f, f, t, g, pop, st.mtimeMs, st.size⟩

/-- `list_universes` from `server.py`: walk `sorted(os.listdir(SAVES_DIR))`,
skip names not ending in `.json`, and keep the summaries of the files whose
stat/parse/field accesses all succeed. -/
def list_universes (dir : Dir) : List Summary :=
  (List.insertionSort fnameLe (dir.map Prod.fst)).filterMap fun f =>
    if endsWithJson f then (List.lookup f dir).bind (summarize f) else none

/-- The JSON object `list_universes` appends for one universe. -/
def summaryJson (s : Summary) : JsonV :=
  JsonV.obj
    [("name", JsonV.str s.name), ("filename", JsonV.str s.filename),
     ("tick", s.tick), ("generation", s.generation),
     ("population", JsonV.num s.population),
     ("savedAt", JsonV.num s.savedAt), ("fileSize", JsonV.num s.fileSize)]

/-- The `/api/universes` branch of `do_GET`: always `send_json` (status
200) with the array built by `list_universes`. -/
def handleList (dir : Dir) : Response :=
  ⟨200, RespBody.json (JsonV.arr ((list_universes dir).map summaryJson))⟩

/-- Spec §3, the character class of the to-filename mapping, from the
spec's words: "strip every character that is not alphanumeric, underscore,
whitespace, or hyphen" — i.e. keep exactly these. -/
def specKeep (c : Char) : Bool :=
  c.isAlphanum || c = '_' || pySpace c || c = '-'

/-- Spec §3, "collapse internal whitespace runs to a single underscore",
written directly on runs: a whitespace character opens a run, the whole run
is consumed, and a single underscore is emitted. -/
def collapseRuns : List Char → List Char
  | [] => []
  | c :: rest =>
    if pySpace c then '_' :: collapseRuns (rest.dropWhile pySpace)
    else c :: collapseRuns rest
termination_by l => l.length
decreasing_by
  all_goals simp only [List.length_cons]
  · exact Nat.lt_succ_of_le (List.dropWhile_sublist pySpace).length_le
  · exact Nat.lt_succ_self _

/-- Spec §3, the whole to-filename mapping, following the spec text: keep
the allowed characters, trim leading/trailing whitespace, collapse
whitespace runs to underscores, append `.json`; fail exactly when the
result before the extension is empty. -/
def specSanitize (name : String) : Option String :=
  let stem := collapseRuns (pyStrip (name.data.filter specKeep))
  if stem = [] then none else some (String.mk (stem ++ jsonExtL))

/-- Spec §3, the from-filename mapping, following the spec text: "drop the
`.json` suffix, replace every underscore with a space". -/
def dropJsonSuffix (l : List Char) : List Char :=
  if jsonExtL.isSuffixOf l then l.take (l.length - 5) else l

/-- Spec §3 from-filename mapping as stated (suffix drop, then underscores
to spaces), to be compared with the source's `name_from_filename`. -/
def specNameFromFilename (f : String) : String :=
  String.mk (underscoreToSpace (dropJsonSuffix f.data))

end EcoSim

namespace EcoSim

example : safe_filename "My World" = some "My_World.json" := by decide
example : safe_filename "My_World" = some "My_World.json" := by decide
example : safe_filename "!!!" = none := by decide
example : safe_filename " " = none := by decide
example : safe_filename "a-b_c  d" = some "a-b_c_d.json" := by decide
example : name_from_filename "a.json.json" = "a" := by decide
example : name_from_filename "My_World.json" = "My World" := by decide
example : univNewlines "x\r\ny".data = "x\ny".data := by decide
example : univNewlines "x\ry".data = "x\ny".data := by decide
example : (save_universe [] "a" "x\ry" false).2 = true := by decide
example : load_universe (save_universe [] "a" "x\ry" false).1 "a" = some "x\ny" := by decide
example : (delete_universe [("a.json", "z")] "a").2 = true := by decide
example : load_universe (delete_universe [("a.json", "z")] "a").1 "a" = none := by decide

section ListingChecks

example :
    list_universes
      [("b.json", ⟨some ⟨5, 7⟩, some (JsonV.obj [])⟩),
       ("a.json", ⟨some ⟨1, 2⟩,
          some (JsonV.obj [("tick", JsonV.num 9),
            ("creatures", JsonV.arr [JsonV.null, JsonV.null])])⟩),
       ("c.txt", ⟨some ⟨1, 2⟩, some (JsonV.obj [])⟩),
       ("d.json", ⟨none, some (JsonV.obj [])⟩),
       ("e.json", ⟨some ⟨1, 2⟩, none⟩),
       ("f.json", ⟨some ⟨1, 2⟩, some (JsonV.num 42)⟩)] =
    [⟨"a", "a.json", JsonV.num 9, JsonV.num 0, 2, 1, 2⟩,
     ⟨"b", "b.json", JsonV.num 0, JsonV.num 0, 0, 5, 7⟩] := rfl

end ListingChecks

/-! Helper lemmas about the sanitization pipeline. -/

theorem collapseWS_eq_collapseRuns (l : List Char) :
    collapseWS l = collapseRuns l := by
  induction l using collapseWS.induct with
  | case1 => simp [collapseWS, collapseRuns]
  | case2 c h => simp [collapseWS, collapseRuns, h, List.dropWhile]
  | case3 c h => simp [collapseWS, collapseRuns, h]
  | case4 c c2 rest h h2 ih =>
    rw [collapseWS, if_pos h, if_pos h2, ih]
    conv_lhs => rw [collapseRuns, if_pos h2]
    conv_rhs => rw [collapseRuns, if_pos h]
    rw [List.dropWhile_cons_of_pos h2]
  | case5 c c2 rest h h2 ih =>
    rw [collapseWS, if_pos h, if_neg h2, ih]
    conv_rhs => rw [collapseRuns, if_pos h]
    rw [List.dropWhile_cons_of_neg h2]
  | case6 c c2 rest h ih =>
    rw [collapseWS, if_neg h, ih]
    conv_rhs => rw [collapseRuns, if_neg h]

theorem mem_collapseWS {c : Char} {l : List Char} (hc : c ∈ collapseWS l) :
    c = '_' ∨ (c ∈ l ∧ pySpace c = false) := by
  induction l using collapseWS.induct with
  | case1 => simp [collapseWS] at hc
  | case2 c2 h =>
    simp [collapseWS, h] at hc
    left; exact hc
  | case3 c2 h =>
    simp [collapseWS, h] at hc
    right; simp [hc, h]
  | case4 c1 c2 rest h h2 ih =>
    rw [collapseWS, if_pos h, if_pos h2] at hc
    rcases ih hc with h' | ⟨hmem, hns⟩
    · left; exact h'
    · right; exact ⟨List.mem_cons_of_mem _ hmem, hns⟩
  | case5 c1 c2 rest h h2 ih =>
    rw [collapseWS, if_pos h, if_neg h2] at hc
    rcases List.mem_cons.mp hc with h' | h'
    · left; exact h'
    · rcases ih h' with h'' | ⟨hmem, hns⟩
      · left; exact h''
      · right; exact ⟨List.mem_cons_of_mem _ hmem, hns⟩
  | case6 c1 c2 rest h ih =>
    rw [collapseWS, if_neg h] at hc
    rcases List.mem_cons.mp hc with h' | h'
    · right; subst h'; simp [h]
    · rcases ih h' with h'' | ⟨hmem, hns⟩
      · left; exact h''
      · right; exact ⟨List.mem_cons_of_mem _ hmem, hns⟩

theorem collapseWS_ne_nil {l : List Char} (h : l ≠ []) :
    collapseWS l ≠ [] := by
  induction l using collapseWS.induct with
  | case1 => exact absurd rfl h
  | case2 c hs => simp [collapseWS, hs]
  | case3 c hs => simp [collapseWS, hs]
  | case4 c1 c2 rest hs hs2 ih =>
    rw [collapseWS, if_pos hs, if_pos hs2]; exact ih (List.cons_ne_nil _ _)
  | case5 c1 c2 rest hs hs2 ih =>
    rw [collapseWS, if_pos hs, if_neg hs2]; exact List.cons_ne_nil _ _
  | case6 c1 c2 rest hs ih =>
    rw [collapseWS, if_neg hs]; exact List.cons_ne_nil _ _

theorem mem_pyStrip {c : Char} {l : List Char} (hc : c ∈ pyStrip l) :
    c ∈ l := by
  unfold pyStrip at hc
  have h1 := (List.dropWhile_sublist pySpace).subset
    (List.mem_reverse.mp hc)
  exact (List.dropWhile_sublist pySpace).subset (List.mem_reverse.mp h1)

theorem pyStrip_eq_nil {l : List Char} (h : pyStrip l = [])
    {c : Char} (hc : c ∈ l) : pySpace c = true := by
  unfold pyStrip at h
  rw [List.reverse_eq_nil_iff, List.dropWhile_eq_nil_iff] at h
  have hsplit : c ∈ List.takeWhile pySpace l ++ List.dropWhile pySpace l := by
    rw [List.takeWhile_append_dropWhile]; exact hc
  rcases List.mem_append.mp hsplit with h1 | h1
  · exact List.mem_takeWhile_imp h1
  · exact h c (List.mem_reverse.mpr h1)

/-- Every character of a sanitized stem is alphanumeric, an underscore, or
a hyphen. -/
theorem stem_chars {c : Char} {l : List Char} (hc : c ∈ sanitizedStem l) :
    c.isAlphanum = true ∨ c = '_' ∨ c = '-' := by
  rcases mem_collapseWS hc with h | ⟨hmem, hns⟩
  · right; left; exact h
  · have hkeep : keepChar c = true :=
      List.of_mem_filter (mem_pyStrip hmem)
    unfold keepChar pyWord at hkeep
    simp only [Bool.or_eq_true, decide_eq_true_eq] at hkeep
    rcases hkeep with ((h1 | h1) | h1) | h1
    · left; exact h1
    · right; left; exact h1
    · rw [h1] at hns; exact absurd hns (by simp)
    · right; right; exact h1

/-- A sanitized stem never contains a dot, slash or backslash. -/
theorem stem_no_specials {c : Char} {l : List Char} (hc : c ∈ sanitizedStem l) :
    c ≠ '.' ∧ c ≠ '/' ∧ c ≠ '\\' := by
  rcases stem_chars hc with h | h | h
  · refine ⟨?_, ?_, ?_⟩ <;> rintro rfl <;> simp at h
  · rw [h]; refine ⟨by decide, by decide, by decide⟩
  · rw [h]; refine ⟨by decide, by decide, by decide⟩

/-- `str.replace('.json', '')` is the identity on a dot-free stem with one
`.json` extension appended: exactly the extension is removed. -/
theorem removeJson_stem_ext {stem : List Char} (h : '.' ∉ stem) :
    removeJson (stem ++ jsonExtL) = stem := by
  induction stem with
  | nil => rfl
  | cons c s ih =>
    have hc : c ≠ '.' := fun e => h (e ▸ List.mem_cons_self _ _)
    have ih' := ih (fun hmem => h (List.mem_cons_of_mem _ hmem))
    simpa [removeJson, hc] using ih'

/-- Dropping the `.json` suffix from a stem with the extension appended
recovers the stem. -/
theorem dropJsonSuffix_stem_ext (stem : List Char) :
    dropJsonSuffix (stem ++ jsonExtL) = stem := by
  unfold dropJsonSuffix
  rw [if_pos (List.isSuffixOf_iff_suffix.mpr (List.suffix_append stem jsonExtL))]
  simp [jsonExtL]

/-- Universal-newline translation is the identity on carriage-return-free
text. -/
theorem univNewlines_of_no_cr {l : List Char} (h : '\r' ∉ l) :
    univNewlines l = l := by
  induction l using univNewlines.induct with
  | case1 => rfl
  | case2 rest ih => exact absurd (List.mem_cons_self _ _) h
  | case3 rest ih => exact absurd (List.mem_cons_self _ _) h
  | case4 c rest hne1 hne2 ih =>
    have := ih (fun hmem => h (List.mem_cons_of_mem _ hmem))
    rw [univNewlines, this]
    · exact hne1
    · exact hne2

/-! Helper lemmas about the directory model. -/

theorem fsLookup_fsWrite (fs : FS) (k v : String) :
    fsLookup (fsWrite fs k v) k = some v := by
  simp [fsLookup, fsWrite, List.lookup]

theorem fsLookup_fsWrite_self (fs : FS) (k k' v : String) (h : k' = k) :
    fsLookup (fsWrite fs k v) k' = some v := by
  rw [h]; exact fsLookup_fsWrite fs k v

theorem fsLookup_fsErase (fs : FS) (k : String) :
    fsLookup (fsErase fs k) k = none := by
  unfold fsLookup fsErase
  induction fs with
  | nil => rfl
  | cons p rest ih =>
    rcases p with ⟨a, b⟩
    by_cases h : a = k
    · subst h; simpa using ih
    · have hne : (a != k) = true := bne_iff_ne.mpr h
      have hne' : (k == a) = false := beq_eq_false_iff_ne.mpr (Ne.symm h)
      simp only [List.filter_cons, hne, if_true]
      rw [List.lookup_cons]
      simpa [hne'] using ih

theorem fsWrite_unique (fs : FS) (k v : String) :
    (List.filter (fun p => p.1 == k) (fsWrite fs k v)).length = 1 := by
  unfold fsWrite
  rw [List.filter_cons]
  simp only [beq_self_eq_true, if_true]
  rw [List.filter_filter]
  have : ∀ p : String × String, ((p.1 == k) && (p.1 != k)) = false := by
    intro p
    by_cases h : p.1 = k <;> simp [h]
  rw [List.filter_eq_nil_iff.mpr (fun p _ => by rw [this p]; exact Bool.false_ne_true)]
  rfl

theorem lookup_mem_keys {α β : Type} [BEq α] [LawfulBEq α]
    {l : List (α × β)} {k : α} {v : β}
    (h : List.lookup k l = some v) : k ∈ l.map Prod.fst := by
  induction l with
  | nil => simp [List.lookup] at h
  | cons p rest ih =>
    rw [List.lookup_cons] at h
    by_cases hk : k == p.1
    · have : k = p.1 := eq_of_beq hk
      simp [this]
    · rw [Bool.not_eq_true] at hk
      rw [hk] at h
      exact List.mem_cons_of_mem _ (ih h)

/-! Helper lemmas about `safe_filename`. -/

theorem safe_filename_eq_none_iff (name : String) :
    safe_filename name = none ↔ sanitizedStem name.data = [] := by
  unfold safe_filename
  by_cases h : (sanitizedStem name.data).isEmpty
  · simp [h, List.isEmpty_iff.mp h]
  · simp only [h, if_false]
    simp only [List.isEmpty_iff] at h
    simp [h]

theorem safe_filename_some_data {name fn : String}
    (h : safe_filename name = some fn) :
    fn.data = sanitizedStem name.data ++ jsonExtL := by
  unfold safe_filename at h
  by_cases he : (sanitizedStem name.data).isEmpty
  · simp [he] at h
  · rw [if_neg he, Option.some_inj] at h
    rw [← h]

/-- Every name built from letters, digits, spaces and hyphens, with at
least one non-space character, sanitizes successfully. -/
theorem safe_filename_allowed {name : String}
    (hchars : ∀ c ∈ name.data,
      c.isAlpha = true ∨ c.isDigit = true ∨ c = ' ' ∨ c = '-')
    (hnonsp : ∃ c ∈ name.data, c ≠ ' ') :
    ∃ fn, safe_filename name = some fn := by
  have hfilter : name.data.filter keepChar = name.data := by
    apply List.filter_eq_self.mpr
    intro c hc
    rcases hchars c hc with h | h | h | h
    · simp [keepChar, pyWord, Char.isAlphanum, h]
    · simp [keepChar, pyWord, Char.isAlphanum, h]
    · simp [keepChar, pySpace, h]
    · simp [keepChar, h]
  have hstrip : pyStrip name.data ≠ [] := by
    intro hnil
    rcases hnonsp with ⟨c, hc, hcne⟩
    have hsp := pyStrip_eq_nil hnil hc
    rcases hchars c hc with h | h | h | h
    · simp only [pySpace, Bool.or_eq_true, decide_eq_true_eq] at hsp
      rcases hsp with ((((h' | h') | h') | h') | h') | h' <;>
        · subst h'; simp [Char.isAlpha, Char.isLower, Char.isUpper] at h
    · simp only [pySpace, Bool.or_eq_true, decide_eq_true_eq] at hsp
      rcases hsp with ((((h' | h') | h') | h') | h') | h' <;>
        · subst h'; simp [Char.isDigit] at h
    · exact hcne h
    · subst h; simp [pySpace] at hsp
  have hstem : sanitizedStem name.data ≠ [] := by
    unfold sanitizedStem
    rw [hfilter]
    exact collapseWS_ne_nil hstrip
  refine ⟨String.mk (sanitizedStem name.data ++ jsonExtL), ?_⟩
  unfold safe_filename
  rw [if_neg (by simpa [List.isEmpty_iff] using hstem)]

/-! Helper lemmas about the filename order used by the listing. -/

theorem leChars_total : ∀ a b : List Char, leChars a b = true ∨ leChars b a = true
  | [], _ => Or.inl rfl
  | _ :: _, [] => Or.inr rfl
  | a :: as, b :: bs => by
    rcases lt_trichotomy a b with h | h | h
    · left; rw [leChars, if_pos h]
    · subst h
      rcases leChars_total as bs with h' | h'
      · left; rw [leChars, if_neg (lt_irrefl a), if_neg (lt_irrefl a)]; exact h'
      · right; rw [leChars, if_neg (lt_irrefl a), if_neg (lt_irrefl a)]; exact h'
    · right; rw [leChars, if_pos h]

theorem leChars_trans : ∀ a b c : List Char,
    leChars a b = true → leChars b c = true → leChars a c = true
  | [], _, _ => fun _ _ => rfl
  | _ :: _, [], _ => fun h _ => by rw [leChars] at h; exact absurd h Bool.false_ne_true
  | _ :: _, _ :: _, [] => fun _ h => by rw [leChars] at h; exact absurd h Bool.false_ne_true
  | a :: as, b :: bs, c :: cs => fun h1 h2 => by
    rw [leChars] at h1 h2 ⊢
    rcases lt_trichotomy a b with hab | hab | hab
    · rcases lt_trichotomy b c with hbc | hbc | hbc
      · rw [if_pos (lt_trans hab hbc)]
      · subst hbc; rw [if_pos hab]
      · rw [if_neg (lt_asymm hbc), if_pos hbc] at h2
        exact absurd h2 Bool.false_ne_true
    · subst hab
      rcases lt_trichotomy a c with hac | hac | hac
      · rw [if_pos hac]
      · subst hac
        rw [if_neg (lt_irrefl a), if_neg (lt_irrefl a)] at h1 h2 ⊢
        exact leChars_trans as bs cs h1 h2
      · rw [if_neg (lt_asymm hac), if_pos hac] at h2
        exact absurd h2 Bool.false_ne_true
    · rw [if_neg (lt_asymm hab), if_pos hab] at h1
      exact absurd h1 Bool.false_ne_true

instance : IsTotal String fnameLe :=
  ⟨fun a b => leChars_total a.data b.data⟩

instance : IsTrans String fnameLe :=
  ⟨fun a b c => leChars_trans a.data b.data c.data⟩

/-! Helper lemmas about `summarize`. -/

/-- A successful summary pins down the stat and parse oracles and carries
the filename it was built from. -/
theorem summarize_some {f : String} {e : DirEntry} {s : Summary}
    (h : summarize f e = some s) :
    ∃ st data, e.statE = some st ∧ e.parsed = some data ∧
      s.filename = f ∧ s.name = name_from_filename f := by
  unfold summarize at h
  rcases Option.bind_eq_some.mp h with ⟨st, hst, h⟩
  rcases Option.bind_eq_some.mp h with ⟨data, hdata, h⟩
  rcases Option.bind_eq_some.mp h with ⟨t, ht, h⟩
  rcases Option.bind_eq_some.mp h with ⟨g, hg, h⟩
  rcases Option.bind_eq_some.mp h with ⟨cs, hcs, h⟩
  rcases Option.bind_eq_some.mp h with ⟨pop, hpop, h⟩
  refine ⟨st, data, hst, hdata, ?_, ?_⟩ <;>
    · rw [← Option.some_inj.mp h]

/-- The summary produced for a file whose JSON is an object and whose
`creatures` value (after the default) is an array. -/
theorem summarize_obj {f : String} {st : Stat}
    {fields : List (String × JsonV)} {cl : List JsonV} {e : DirEntry}
    (hst : e.statE = some st) (hp : e.parsed = some (JsonV.obj fields))
    (hc : (List.lookup "creatures" fields).getD (JsonV.arr []) = JsonV.arr cl) :
    summarize f e = some
      ⟨name_from_filename f, f,
       (List.lookup "tick" fields).getD (JsonV.num 0),
       (List.lookup "maxGeneration" fields).getD (JsonV.num 0),
       cl.length, st.mtimeMs, st.size⟩ := by
  unfold summarize
  rw [hst, hp]
  simp [jget, hc, pyLen]

/-- A summary emitted by the listing step for filename `f` carries `f` as
its filename field. -/
theorem listStep_filename {dir : Dir} {f : String} {s : Summary}
    (hs : (if endsWithJson f = true
        then (List.lookup f dir).bind (summarize f) else none) = some s) :
    s.filename = f := by
  by_cases he : endsWithJson f = true
  · rw [if_pos he] at hs
    rcases Option.bind_eq_some.mp hs with ⟨e, hin, hsum⟩
    obtain ⟨st, data, _, _, hfn, _⟩ := summarize_some hsum
    exact hfn
  · rw [if_neg he] at hs
    exact absurd hs (by simp)

/-! The claims. -/

/-- C3: for every input name, the name-to-filename sanitization strips
every character that is not alphanumeric, underscore, whitespace or
hyphen, trims leading and trailing whitespace, collapses each internal
whitespace run to a single underscore, appends `.json`, and fails exactly
when the result before the extension is empty.  Stated as: the source's
`safe_filename` coincides with the pipeline spelled out by the spec
(`specSanitize`), and failure is equivalent to emptiness of the stem. -/
theorem claim_C3 (name : String) :
    safe_filename name = specSanitize name ∧
    (safe_filename name = none ↔
      collapseRuns (pyStrip (name.data.filter specKeep)) = []) := by
  have hkeep : ∀ c, keepChar c = specKeep c := by
    intro c
    unfold keepChar pyWord specKeep
    by_cases h1 : c.isAlphanum <;> simp [h1]
  have hfilter : name.data.filter keepChar = name.data.filter specKeep :=
    List.filter_congr (fun c _ => hkeep c)
  have hstem : sanitizedStem name.data =
      collapseRuns (pyStrip (name.data.filter specKeep)) := by
    unfold sanitizedStem
    rw [hfilter, collapseWS_eq_collapseRuns]
  constructor
  · unfold safe_filename specSanitize
    rw [hstem]
    by_cases h : collapseRuns (pyStrip (name.data.filter specKeep)) = [] <;>
      simp [h, List.isEmpty_iff]
  · rw [safe_filename_eq_none_iff, hstem]

/-- C9: for every name whose sanitization fails and every request body,
Save responds 400 and the save directory is unchanged — no file is
created. -/
theorem claim_C9 (fs : FS) (name body : String) (ioFail : Bool)
    (h : safe_filename name = none) :
    handlePost fs name body ioFail =
      (⟨400, RespBody.err "Failed to save"⟩, fs) := by
  simp [handlePost, save_universe, h]

/-- Witness for C9 at the all-punctuation name `"!!!"`. -/
theorem claim_C9_witness :
    safe_filename "!!!" = none ∧
    handlePost [] "!!!" "body" false =
      (⟨400, RespBody.err "Failed to save"⟩, []) :=
  ⟨by decide, claim_C9 [] "!!!" "body" false (by decide)⟩

/-- C10: every successfully sanitized filename contains no slash or
backslash and exactly one dot — the one of the appended `.json` extension,
which is its suffix — and in particular is never `".."`: every file
operation stays directly inside the save directory. -/
theorem claim_C10 (name fn : String) (h : safe_filename name = some fn) :
    '/' ∉ fn.data ∧ '\\' ∉ fn.data ∧ fn.data.count '.' = 1 ∧
    jsonExtL.isSuffixOf fn.data = true ∧ fn ≠ ".." := by
  have hdata := safe_filename_some_data h
  have hno : ∀ c ∈ sanitizedStem name.data, c ≠ '.' ∧ c ≠ '/' ∧ c ≠ '\\' :=
    fun c hc => stem_no_specials hc
  have hcount : fn.data.count '.' = 1 := by
    rw [hdata, List.count_append]
    have h0 : (sanitizedStem name.data).count '.' = 0 :=
      List.count_eq_zero.mpr (fun hmem => (hno _ hmem).1 rfl)
    rw [h0]
    rfl
  refine ⟨?_, ?_, hcount, ?_, ?_⟩
  · rw [hdata]
    intro hmem
    rcases List.mem_append.mp hmem with h1 | h1
    · exact (hno _ h1).2.1 rfl
    · simp [jsonExtL] at h1
  · rw [hdata]
    intro hmem
    rcases List.mem_append.mp hmem with h1 | h1
    · exact (hno _ h1).2.2 rfl
    · simp [jsonExtL] at h1
  · rw [hdata]
    exact List.isSuffixOf_iff_suffix.mpr (List.suffix_append _ _)
  · intro he
    rw [he] at hcount
    exact absurd hcount (by decide)

/-- Witness for C10 at the name `"My World"`. -/
theorem claim_C10_witness :
    '/' ∉ ("My_World.json" : String).data ∧
    '\\' ∉ ("My_World.json" : String).data ∧
    ("My_World.json" : String).data.count '.' = 1 ∧
    jsonExtL.isSuffixOf ("My_World.json" : String).data = true ∧
    ("My_World.json" : String) ≠ ".." :=
  claim_C10 "My World" "My_World.json" (by decide)

/-- C5: two distinct names that sanitize to the same filename share one
stored file: after saving the first and then the second, exactly one entry
exists for that filename and it holds the second payload; in particular
`"My World"` and `"My_World"` both sanitize to `My_World.json`. -/
theorem claim_C5 :
    (∀ (fs : FS) (n1 n2 p1 p2 fn : String), n1 ≠ n2 →
      safe_filename n1 = some fn → safe_filename n2 = some fn →
      (List.filter (fun p => p.1 == fn)
          (save_universe (save_universe fs n1 p1 false).1 n2 p2 false).1).length
        = 1 ∧
      fsLookup (save_universe (save_universe fs n1 p1 false).1 n2 p2 false).1 fn
        = some p2) ∧
    safe_filename "My World" = some "My_World.json" ∧
    safe_filename "My_World" = some "My_World.json" := by
  refine ⟨?_, by decide, by decide⟩
  intro fs n1 n2 p1 p2 fn hne h1 h2
  rw [show (save_universe fs n1 p1 false).1 = fsWrite fs fn p1 from by
    simp [save_universe, h1]]
  rw [show (save_universe (fsWrite fs fn p1) n2 p2 false).1 =
      fsWrite (fsWrite fs fn p1) fn p2 from by simp [save_universe, h2]]
  exact ⟨fsWrite_unique _ fn p2, fsLookup_fsWrite _ fn p2⟩

/-- Witness for C5 at the two names of the claim. -/
theorem claim_C5_witness :
    (List.filter (fun p => p.1 == ("My_World.json" : String))
        (save_universe (save_universe [] "My World" "x" false).1
          "My_World" "y" false).1).length = 1 ∧
    fsLookup (save_universe (save_universe [] "My World" "x" false).1
        "My_World" "y" false).1 "My_World.json" = some "y" :=
  claim_C5.1 [] "My World" "My_World" "x" "y" "My_World.json"
    (by decide) (by decide) (by decide)

/-- C6: Save responds 400 exactly when the name's sanitization fails or an
I/O failure occurs during the write; otherwise it writes the body verbatim
to the sanitized file (replacing any prior content, creating the entry if
absent, with no JSON validity check — the body is an arbitrary string) and
responds 200 with the JSON object `ok: true, name`. -/
theorem claim_C6 (fs : FS) (name body : String) (ioFail : Bool) :
    ((handlePost fs name body ioFail).1.status = 400 ↔
      (safe_filename name = none ∨ ioFail = true)) ∧
    ((handlePost fs name body ioFail).1.status ≠ 400 →
      (handlePost fs name body ioFail).1 =
        ⟨200, RespBody.json (JsonV.obj
          [("ok", JsonV.bool true), ("name", JsonV.str name)])⟩ ∧
      ∀ fn, safe_filename name = some fn →
        (handlePost fs name body ioFail).2 = fsWrite fs fn body ∧
        fsLookup (handlePost fs name body ioFail).2 fn = some body) := by
  cases hsf : safe_filename name with
  | none => simp [handlePost, save_universe, hsf]
  | some fn =>
    cases ioFail with
    | true => simp [handlePost, save_universe, hsf]
    | false =>
      constructor
      · simp [handlePost, save_universe, hsf]
      · intro _
        refine ⟨by simp [handlePost, save_universe, hsf], ?_⟩
        intro fn' hfn'
        obtain rfl : fn = fn' := Option.some_inj.mp hfn'
        refine ⟨by simp [handlePost, save_universe, hsf], ?_⟩
        have : (handlePost fs name body false).2 = fsWrite fs fn body := by
          simp [handlePost, save_universe, hsf]
        rw [this]
        exact fsLookup_fsWrite fs fn body

/-- Witness for C6 at the name `"a"` and body `"body"`. -/
theorem claim_C6_witness :
    ((handlePost [] "a" "body" false).1.status = 400 ↔
      (safe_filename "a" = none ∨ false = true)) ∧
    fsLookup (handlePost [] "a" "body" false).2 "a.json" = some "body" :=
  ⟨(claim_C6 [] "a" "body" false).1,
   (((claim_C6 [] "a" "body" false).2 (by decide)).2 "a.json" (by decide)).2⟩

/-- C7: Delete responds 404 exactly when the name's sanitization fails or
the sanitized file does not exist; otherwise it removes that file and
responds 200 with the JSON object `ok: true`, after which a Load of the
same name responds 404. -/
theorem claim_C7 (fs : FS) (name : String) :
    ((handleDelete fs name).1.status = 404 ↔
      (safe_filename name = none ∨
        ∀ fn, safe_filename name = some fn → fsLookup fs fn = none)) ∧
    (∀ fn content, safe_filename name = some fn →
      fsLookup fs fn = some content →
      (handleDelete fs name).1 =
        ⟨200, RespBody.json (JsonV.obj [("ok", JsonV.bool true)])⟩ ∧
      (handleDelete fs name).2 = fsErase fs fn ∧
      fsLookup (handleDelete fs name).2 fn = none ∧
      (handleLoad (handleDelete fs name).2 name).status = 404) := by
  cases hsf : safe_filename name with
  | none =>
    constructor
    · simp [handleDelete, delete_universe, hsf]
    · intro fn content hfn
      exact absurd hfn (by simp)
  | some fn =>
    cases hlk : fsLookup fs fn with
    | none =>
      constructor
      · constructor
        · intro _
          right
          intro fn' hfn'
          obtain rfl : fn = fn' := Option.some_inj.mp hfn'
          exact hlk
        · intro _
          simp [handleDelete, delete_universe, hsf, hlk]
      · intro fn' content hfn' hcontent
        obtain rfl : fn = fn' := Option.some_inj.mp hfn'
        rw [hcontent] at hlk
        exact absurd hlk (by simp)
    | some content =>
      have hdel : handleDelete fs name =
          (⟨200, RespBody.json (JsonV.obj [("ok", JsonV.bool true)])⟩,
            fsErase fs fn) := by
        simp [handleDelete, delete_universe, hsf, hlk]
      constructor
      · rw [hdel]
        constructor
        · intro h
          simp at h
        · rintro (h | h)
          · exact absurd h (by simp)
          · rw [h fn rfl] at hlk
            exact absurd hlk (by simp)
      · intro fn' content' hfn' hcontent'
        obtain rfl : fn = fn' := Option.some_inj.mp hfn'
        rw [hdel]
        refine ⟨rfl, rfl, fsLookup_fsErase fs fn, ?_⟩
        simp [handleLoad, load_universe, hsf, fsLookup_fsErase fs fn]

/-- Witness for C7 at a directory holding `a.json`. -/
theorem claim_C7_witness :
    (handleDelete [("a.json", "z")] "a").1 =
      ⟨200, RespBody.json (JsonV.obj [("ok", JsonV.bool true)])⟩ ∧
    fsLookup (handleDelete [("a.json", "z")] "a").2 "a.json" = none ∧
    (handleLoad (handleDelete [("a.json", "z")] "a").2 "a").status = 404 := by
  have h := (claim_C7 [("a.json", "z")] "a").2 "a.json" "z" (by decide) (by decide)
  exact ⟨h.1, h.2.2.1, h.2.2.2⟩

/-- C1, counterexample to the byte-for-byte clause: a stored file holding
`"x\r\ny"` is served as `"x\ny"`, because `load_universe` reads the file
in text mode and universal-newline translation rewrites `"\r\n"` (and lone
`"\r"`) to `"\n"`.  The 404 clause of the claim is intact (see the amended
theorem). -/
theorem claim_C1_cex :
    fsLookup [(("a.json" : String), ("x\r\ny" : String))] "a.json" =
      some "x\r\ny" ∧
    handleLoad [("a.json", "x\r\ny")] "a" = ⟨200, RespBody.raw "x\ny"⟩ ∧
    ("x\ny" : String) ≠ "x\r\ny" :=
  ⟨rfl, rfl, by decide⟩

/-- C1 amended: Load responds 404 exactly when sanitization fails or the
sanitized file does not exist; otherwise it responds 200 with the stored
content after universal-newline translation (text-mode read), which is
byte-for-byte the stored content whenever that content holds no carriage
return. -/
theorem claim_C1 (fs : FS) (name : String) :
    ((handleLoad fs name).status = 404 ↔
      (safe_filename name = none ∨
        ∀ fn, safe_filename name = some fn → fsLookup fs fn = none)) ∧
    (∀ fn content, safe_filename name = some fn →
      fsLookup fs fn = some content →
      handleLoad fs name =
        ⟨200, RespBody.raw (String.mk (univNewlines content.data))⟩ ∧
      ('\r' ∉ content.data →
        handleLoad fs name = ⟨200, RespBody.raw content⟩)) := by
  cases hsf : safe_filename name with
  | none =>
    constructor
    · simp [handleLoad, load_universe, hsf]
    · intro fn content hfn
      exact absurd hfn (by simp)
  | some fn =>
    cases hlk : fsLookup fs fn with
    | none =>
      constructor
      · constructor
        · intro _
          right
          intro fn' hfn'
          obtain rfl : fn = fn' := Option.some_inj.mp hfn'
          exact hlk
        · intro _
          simp [handleLoad, load_universe, hsf, hlk]
      · intro fn' content hfn' hcontent
        obtain rfl : fn = fn' := Option.some_inj.mp hfn'
        rw [hcontent] at hlk
        exact absurd hlk (by simp)
    | some content =>
      have hload : handleLoad fs name =
          ⟨200, RespBody.raw (String.mk (univNewlines content.data))⟩ := by
        simp [handleLoad, load_universe, hsf, hlk]
      constructor
      · rw [hload]
        constructor
        · intro h
          simp at h
        · rintro (h | h)
          · exact absurd h (by simp)
          · rw [h fn rfl] at hlk
            exact absurd hlk (by simp)
      · intro fn' content' hfn' hcontent'
        obtain rfl : fn = fn' := Option.some_inj.mp hfn'
        rw [hcontent'] at hlk
        obtain rfl : content = content' := Option.some_inj.mp hlk.symm
        refine ⟨hload, ?_⟩
        intro hnocr
        rw [hload, univNewlines_of_no_cr hnocr]

/-- Witness for the amended C1 at a CR-free stored file. -/
theorem claim_C1_witness :
    handleLoad [(("a.json" : String), ("xy" : String))] "a" =
      ⟨200, RespBody.raw "xy"⟩ :=
  (((claim_C1 [("a.json", "xy")] "a").2 "a.json" "xy"
      (by decide) (by decide)).2 (by decide))

/-- C2, counterexample: with the valid name `"a"`, saving the body
`"x\ry"` and loading it back yields `"x\ny"`, not the saved bytes (the
text-mode read normalizes the carriage return); and the claim's name
quantifier also admits the all-space name `" "` (letters, digits, spaces
and hyphens only), for which Save itself fails and Load yields nothing. -/
theorem claim_C2_cex :
    ((∀ c ∈ ("a" : String).data,
        c.isAlpha = true ∨ c.isDigit = true ∨ c = ' ' ∨ c = '-') ∧
      (save_universe [] "a" "x\ry" false).2 = true ∧
      load_universe (save_universe [] "a" "x\ry" false).1 "a" = some "x\ny" ∧
      some ("x\ny" : String) ≠ some ("x\ry" : String)) ∧
    ((∀ c ∈ (" " : String).data,
        c.isAlpha = true ∨ c.isDigit = true ∨ c = ' ' ∨ c = '-') ∧
      (save_universe [] " " "b" false).2 = false ∧
      load_universe (save_universe [] " " "b" false).1 " " = none) :=
  ⟨⟨by decide, by decide, by decide, by decide⟩,
   ⟨by decide, by decide, by decide⟩⟩

/-- C2 amended: for every name of letters, digits, spaces and hyphens with
at least one non-space character, and for every body, Save succeeds and a
subsequent Load returns the body after universal-newline translation —
byte-identical to the body whenever the body holds no carriage return. -/
theorem claim_C2 (fs : FS) (name body : String)
    (hchars : ∀ c ∈ name.data,
      c.isAlpha = true ∨ c.isDigit = true ∨ c = ' ' ∨ c = '-')
    (hnonsp : ∃ c ∈ name.data, c ≠ ' ') :
    (save_universe fs name body false).2 = true ∧
    load_universe (save_universe fs name body false).1 name =
      some (String.mk (univNewlines body.data)) ∧
    ('\r' ∉ body.data →
      load_universe (save_universe fs name body false).1 name = some body) := by
  obtain ⟨fn, hfn⟩ := safe_filename_allowed hchars hnonsp
  have hsave : save_universe fs name body false = (fsWrite fs fn body, true) := by
    simp [save_universe, hfn]
  have hload : load_universe (fsWrite fs fn body) name =
      some (String.mk (univNewlines body.data)) := by
    simp [load_universe, hfn, fsLookup_fsWrite]
  rw [hsave]
  refine ⟨rfl, hload, ?_⟩
  intro hnocr
  rw [hload, univNewlines_of_no_cr hnocr]

/-- Witness for the amended C2 at the name `"My World"` and a CR-free
body. -/
theorem claim_C2_witness :
    (save_universe [] "My World" "payload" false).2 = true ∧
    load_universe (save_universe [] "My World" "payload" false).1 "My World" =
      some "payload" := by
  have h := claim_C2 [] "My World" "payload" (by decide) (by decide)
  exact ⟨h.1, h.2.2 (by decide)⟩

/-- C4, counterexample: `name_from_filename` deletes EVERY occurrence of
`.json` (Python `str.replace` replaces all occurrences), not only the
suffix: on `"a.json.json"` the code yields `"a"` while dropping only the
suffix would yield `"a.json"`. -/
theorem claim_C4_cex :
    name_from_filename "a.json.json" = "a" ∧
    specNameFromFilename "a.json.json" = "a.json" ∧
    name_from_filename "a.json.json" ≠ specNameFromFilename "a.json.json" :=
  ⟨rfl, rfl, by decide⟩

/-- C4 amended: the transform deletes every occurrence of `.json` and then
replaces every underscore with a space; on every filename produced by a
successful sanitization (whose stem is dot-free) this coincides with
dropping the `.json` suffix and replacing underscores with spaces. -/
theorem claim_C4 (name fn : String) (h : safe_filename name = some fn) :
    name_from_filename fn =
      String.mk (underscoreToSpace (sanitizedStem name.data)) ∧
    name_from_filename fn = specNameFromFilename fn := by
  have hdata := safe_filename_some_data h
  have hnodot : '.' ∉ sanitizedStem name.data :=
    fun hmem => (stem_no_specials hmem).1 rfl
  constructor
  · unfold name_from_filename
    rw [hdata, removeJson_stem_ext hnodot]
  · unfold name_from_filename specNameFromFilename
    rw [hdata, removeJson_stem_ext hnodot, dropJsonSuffix_stem_ext]

/-- Witness for the amended C4 at the name `"My World"`. -/
theorem claim_C4_witness :
    name_from_filename "My_World.json" = "My World" ∧
    name_from_filename "My_World.json" = specNameFromFilename "My_World.json" := by
  have h := claim_C4 "My World" "My_World.json" (by decide)
  exact ⟨h.1, h.2⟩

/-- C8, counterexample: a file whose content parses successfully but is
not a JSON object (here the number `42`) is stat-able and parseable, yet
the listing silently omits it (the `data.get` attribute access raises and
the blanket `except` skips the file), so parse/stat failure is not the
only omission condition and the file produces no entry at all. -/
theorem claim_C8_cex :
    endsWithJson "a.json" = true ∧
    List.lookup "a.json"
        [(("a.json" : String), DirEntry.mk (some ⟨0, 0⟩) (some (JsonV.num 42)))]
      = some (DirEntry.mk (some ⟨0, 0⟩) (some (JsonV.num 42))) ∧
    (DirEntry.mk (some (Stat.mk 0 0)) (some (JsonV.num 42))).statE.isSome = true ∧
    (DirEntry.mk (some (Stat.mk 0 0)) (some (JsonV.num 42))).parsed.isSome = true ∧
    list_universes
        [("a.json", DirEntry.mk (some ⟨0, 0⟩) (some (JsonV.num 42)))] = [] :=
  ⟨rfl, rfl, rfl, rfl, rfl⟩

/-- C8 amended: List always responds 200 with entries sorted by filename;
every listed entry comes from a file whose stat and parse both succeeded;
and every `*.json` file whose stat succeeds, whose content parses to a
JSON OBJECT, and whose `creatures` value (after the empty-array default)
is an array, yields an entry with population the length of that array and
generation/tick the `maxGeneration`/`tick` fields (0 when absent).  Files
that fail to stat or parse — and also files parsing to a non-object, or
with a length-less `creatures` value — are silently omitted. -/
theorem claim_C8 (dir : Dir) :
    (handleList dir).status = 200 ∧
    (list_universes dir).Pairwise (fun a b => fnameLe a.filename b.filename) ∧
    (∀ s ∈ list_universes dir, ∃ e, List.lookup s.filename dir = some e ∧
        e.statE.isSome = true ∧ e.parsed.isSome = true) ∧
    (∀ f e, List.lookup f dir = some e → endsWithJson f = true →
      ∀ st fields, e.statE = some st → e.parsed = some (JsonV.obj fields) →
      ∀ cl, (List.lookup "creatures" fields).getD (JsonV.arr []) = JsonV.arr cl →
      ∃ s, s ∈ list_universes dir ∧ s.filename = f ∧
        s.population = cl.length ∧
        s.generation = (List.lookup "maxGeneration" fields).getD (JsonV.num 0) ∧
        s.tick = (List.lookup "tick" fields).getD (JsonV.num 0)) := by
  refine ⟨rfl, ?_, ?_, ?_⟩
  · unfold list_universes
    apply List.pairwise_filterMap.mpr
    have hsorted : List.Pairwise fnameLe
        (List.insertionSort fnameLe (dir.map Prod.fst)) :=
      List.sorted_insertionSort fnameLe _
    refine hsorted.imp ?_
    intro f f' hle s hs s' hs'
    rw [listStep_filename (Option.mem_def.mp hs),
      listStep_filename (Option.mem_def.mp hs')]
    exact hle
  · intro s hmem
    unfold list_universes at hmem
    rcases List.mem_filterMap.mp hmem with ⟨f, hf, hsf⟩
    by_cases he : endsWithJson f = true
    · rw [if_pos he] at hsf
      rcases Option.bind_eq_some.mp hsf with ⟨e, hin, hsum⟩
      obtain ⟨st, data, hst, hp, hfn, _⟩ := summarize_some hsum
      refine ⟨e, ?_, ?_, ?_⟩
      · rw [hfn]; exact hin
      · rw [hst]; rfl
      · rw [hp]; rfl
    · rw [if_neg he] at hsf
      exact absurd hsf (by simp)
  · intro f e hlook he st fields hst hp cl hc
    refine ⟨⟨name_from_filename f, f,
      (List.lookup "tick" fields).getD (JsonV.num 0),
      (List.lookup "maxGeneration" fields).getD (JsonV.num 0),
      cl.length, st.mtimeMs, st.size⟩, ?_, rfl, rfl, rfl, rfl⟩
    unfold list_universes
    apply List.mem_filterMap.mpr
    refine ⟨f, ?_, ?_⟩
    · rw [List.mem_insertionSort]
      exact lookup_mem_keys hlook
    · rw [if_pos he, hlook]
      exact summarize_obj hst hp hc

/-- Witness for the amended C8 at a one-file directory whose JSON object
has one creature and `tick` 7 but no `maxGeneration`. -/
theorem claim_C8_witness :
    ∃ s, s ∈ list_universes
        [(("a.json" : String), DirEntry.mk (some (Stat.mk 3 4))
          (some (JsonV.obj
            [("creatures", JsonV.arr [JsonV.null]), ("tick", JsonV.num 7)])))] ∧
      s.filename = "a.json" ∧
      s.population = 1 ∧
      s.generation = (List.lookup "maxGeneration"
        [("creatures", JsonV.arr [JsonV.null]),
         ("tick", JsonV.num 7)]).getD (JsonV.num 0) ∧
      s.tick = (List.lookup "tick"
        [("creatures", JsonV.arr [JsonV.null]),
         ("tick", JsonV.num 7)]).getD (JsonV.num 0) := by
  have h := (claim_C8 [("a.json", DirEntry.mk (some (Stat.mk 3 4))
      (some (JsonV.obj
        [("creatures", JsonV.arr [JsonV.null]), ("tick", JsonV.num 7)])))]).2.2.2
      "a.json" (DirEntry.mk (some (Stat.mk 3 4))
        (some (JsonV.obj
          [("creatures", JsonV.arr [JsonV.null]), ("tick", JsonV.num 7)])))
      rfl rfl (Stat.mk 3 4)
      [("creatures", JsonV.arr [JsonV.null]), ("tick", JsonV.num 7)]
      rfl rfl [JsonV.null] rfl
  exact h
